import Mathlib

/-!
Shallow embedding of `src/mcmc.py` (class `MCMCSampleCollection`).

Conventions of the embedding:
* Python ints are modelled as `Nat` where the source only ever holds
  non-negative values (sample indices, variable indices, counters), and as
  `Int` where Python subtraction could go negative (bounds checks, list
  indexing).
* Python floats are modelled as `ℚ`; the source never does arithmetic on
  stored values (it only stores, copies and compares them), so exact
  rationals are a faithful carrier.
* Python dicts are modelled as association lists with new bindings consed
  at the front, so `List.lookup` (first match) sees the most recent
  assignment, like a dict.
* Fallible operations (`sys.exit`, failed `assert`, `KeyError` from a dict
  miss, `ValueError` from `list.index`, `IndexError` from list/array
  indexing) return `Except Err _`.
-/

/-- A sample tuple `(sample index, variable index, variable value)`,
as appended by `add_sample_by_index` (src/mcmc.py line 42). -/
abbrev SampleTuple : Type := Nat × Nat × ℚ

/-- The distinct abnormal exits of src/mcmc.py:
`registrationClosed` is the `sys.exit` at line 31, `sampleNotFound` the
`sys.exit` at line 57, `indexOutOfRange` the `assert` at line 48,
`searchInvariant` the `assert` at line 79, `assertionError` the
`assert current_sample_ind > sample_ind` at lines 89/120, `keyError` a
dict lookup miss, `valueError` a `list.index` miss or a negative numpy
dimension, `indexError` an out-of-range list or array subscript. -/
inductive Err : Type
  | registrationClosed
  | sampleNotFound
  | indexOutOfRange
  | searchInvariant
  | assertionError
  | keyError
  | valueError
  | indexError
deriving DecidableEq, Repr

/-- The state of an `MCMCSampleCollection` object: the five attributes set
up by `__init__` (src/mcmc.py lines 22-27). -/
structure MCMCSampleCollection : Type where
  num_vars : Nat
  var_index_given_name : List (String × Nat)
  var_name_given_index : List (Nat × String)
  num_samples : Nat
  sample_tuples : List SampleTuple
deriving DecidableEq, Repr

/-- `MCMCSampleCollection.__init__` (src/mcmc.py lines 22-27):
no variables, empty maps, `num_samples = 1`, empty log. -/
def emptyCollection : MCMCSampleCollection :=
  { num_vars := 0
    var_index_given_name := []
    var_name_given_index := []
    num_samples := 1
    sample_tuples := [] }

/-- `add_sample_by_index` (src/mcmc.py lines 38-42): when
`same_sample_as_prev` is false the counter increments first; the appended
record carries `num_samples - 1` as computed after that update. -/
def add_sample_by_index (st : MCMCSampleCollection) (var_ind : Nat) (value : ℚ)
    (same_sample_as_prev : Bool) : MCMCSampleCollection :=
  let ns := if same_sample_as_prev then st.num_samples else st.num_samples + 1
  { st with
    num_samples := ns
    sample_tuples := st.sample_tuples ++ [(ns - 1, var_ind, value)] }

/-- `init_var` (src/mcmc.py lines 29-36): refuses when `num_samples > 1`
(the `sys.exit` at line 31); otherwise records the name/index pair in both
dicts, emits the initial value through `add_sample_by_index` with
`same_sample_as_prev = True`, and increments `num_vars`. -/
def init_var (st : MCMCSampleCollection) (var_name : String) (value : ℚ) :
    Except Err MCMCSampleCollection :=
  if st.num_samples > 1 then
    .error .registrationClosed
  else
    let var_ind := st.num_vars
    let st1 := { st with
      var_index_given_name := (var_name, var_ind) :: st.var_index_given_name
      var_name_given_index := (var_ind, var_name) :: st.var_name_given_index }
    let st2 := add_sample_by_index st1 var_ind value true
    .ok { st2 with num_vars := st2.num_vars + 1 }

/-- `add_sample_by_name` (src/mcmc.py lines 44-45): the dict subscript
`self.var_index_given_name[var_name]` is evaluated first and raises
`KeyError` for an unregistered name, before `add_sample_by_index` runs. -/
def add_sample_by_name (st : MCMCSampleCollection) (var_name : String) (value : ℚ)
    (same_sample_as_prev : Bool) : Except Err MCMCSampleCollection :=
  match st.var_index_given_name.lookup var_name with
  | none => .error .keyError
  | some var_ind => .ok (add_sample_by_index st var_ind value same_sample_as_prev)

/-- Python list subscript with an `Int` index: a negative index counts from
the end; anything still out of range raises `IndexError` (modelled as
`none`). -/
def pyGet {α : Type} (l : List α) (i : Int) : Option α :=
  let j : Int := if i < 0 then (l.length : Int) + i else i
  if j < 0 then none else l.get? j.toNat

/-- The Python 2 comparison `sample_ind == desired_sample_ind` at
src/mcmc.py line 54. The loop header at line 53 is
`for i, sample_ind in enumerate(self.sample_tuples)`, which binds
`sample_ind` to the whole 3-tuple, not to its first component; in Python an
`==` between a tuple and an integer is simply `False`, for every tuple and
every integer. -/
def pyTupleEqInt (_t : SampleTuple) (_d : Nat) : Bool := false

/-- `test_ind = (upper_bound + lower_bound)/2` (src/mcmc.py line 69);
Python 2 `/` on ints is floor division. -/
def testIndex (lower_bound upper_bound : Nat) : Nat :=
  (upper_bound + lower_bound) / 2

/-- One iteration of the binary-search loop of
`first_tuple_index_of_desired_sample_index` (src/mcmc.py lines 63-79),
with the three-way outcome made explicit: return a position, abort, or
continue with narrowed bounds. The `assert lower_bound + 1 < upper_bound`
at line 79 runs after a bound was updated and before the next iteration,
so a continuation is only produced when the updated bounds satisfy it;
otherwise the step aborts with `searchInvariant`. -/
inductive BinOutcome : Type
  | ret (i : Nat)
  | err (e : Err)
  | cont (lower_bound upper_bound : Nat)
deriving DecidableEq, Repr

def binStep (ts : List SampleTuple) (desired_sample_ind : Nat)
    (lower_bound upper_bound : Nat) : BinOutcome :=
  match pyGet ts ((testIndex lower_bound upper_bound : Int) - 1) with
  | none => .err .indexError
  | some prev =>
    if prev.1 ≥ desired_sample_ind then
      if lower_bound + 1 < testIndex lower_bound upper_bound then
        .cont lower_bound (testIndex lower_bound upper_bound)
      else .err .searchInvariant
    else
      match pyGet ts (testIndex lower_bound upper_bound : Int) with
      | none => .err .indexError
      | some curr =>
        if curr.1 < desired_sample_ind then
          if testIndex lower_bound upper_bound + 1 < upper_bound then
            .cont (testIndex lower_bound upper_bound) upper_bound
          else .err .searchInvariant
        else .ret (testIndex lower_bound upper_bound)

/-- The binary-search loop itself (src/mcmc.py lines 61-79), entered with
`lower_bound = 0` and `upper_bound = len(self.sample_tuples)`. Termination
is by the width `upper_bound - lower_bound`: each continued iteration has
passed the line-79 assertion, which forces the width strictly down. -/
def binSearchGo (ts : List SampleTuple) (desired_sample_ind : Nat)
    (lower_bound upper_bound : Nat) : Except Err Nat :=
  match pyGet ts ((testIndex lower_bound upper_bound : Int) - 1) with
  | none => .error .indexError
  | some prev =>
    if prev.1 ≥ desired_sample_ind then
      if h1 : lower_bound + 1 < testIndex lower_bound upper_bound then
        binSearchGo ts desired_sample_ind lower_bound (testIndex lower_bound upper_bound)
      else .error .searchInvariant
    else
      match pyGet ts (testIndex lower_bound upper_bound : Int) with
      | none => .error .indexError
      | some curr =>
        if curr.1 < desired_sample_ind then
          if h2 : testIndex lower_bound upper_bound + 1 < upper_bound then
            binSearchGo ts desired_sample_ind (testIndex lower_bound upper_bound) upper_bound
          else .error .searchInvariant
        else .ok (testIndex lower_bound upper_bound)
termination_by upper_bound - lower_bound
decreasing_by
  · unfold testIndex at h1 ⊢; omega
  · unfold testIndex at h2 ⊢; omega

/-- `first_tuple_index_of_desired_sample_index` (src/mcmc.py lines 47-79).
The entry assertion (line 48) is over Python ints, hence the `Int` cast.
For `desired_sample_ind ≤ 10` the source scans with the line-54 comparison
(see `pyTupleEqInt`); when no element matches, the `for`-`else` branch is
the `sys.exit` at line 57. -/
def first_tuple_index_of_desired_sample_index (st : MCMCSampleCollection)
    (desired_sample_ind : Nat) : Except Err Nat :=
  if ¬ ((desired_sample_ind : Int) ≤ (st.num_samples : Int) - 1) then
    .error .indexOutOfRange
  else if desired_sample_ind ≤ 10 then
    match st.sample_tuples.findIdx? (fun t => pyTupleEqInt t desired_sample_ind) with
    | some i => .ok i
    | none => .error .sampleNotFound
  else
    binSearchGo st.sample_tuples desired_sample_ind 0 st.sample_tuples.length

/-- `np.zeros((r, c))` for non-negative dimensions: an `r × c` matrix of
zeros as a list of rows. -/
def npZeros (r c : Nat) : List (List ℚ) :=
  List.replicate r (List.replicate c 0)

/-- Assignment `row[i] = v` into a 1-d numpy array: out-of-range raises
`IndexError`. -/
def npSetEntry (row : List ℚ) (i : Nat) (v : ℚ) : Except Err (List ℚ) :=
  if i < row.length then .ok (row.set i v) else .error .indexError

/-- Assignment `mat[i] = row` of a whole row of a 2-d numpy array:
out-of-range raises `IndexError`. (numpy copies the assigned vector, which
the immutable embedding gives for free.) -/
def npSetRow (mat : List (List ℚ)) (i : Nat) (row : List ℚ) :
    Except Err (List (List ℚ)) :=
  if i < mat.length then .ok (mat.set i row) else .error .indexError

/-- The scan loop of `full_posterior_samples` (src/mcmc.py lines 87-95),
one constructor case per loop iteration. On a change of sample index the
source first runs `assert current_sample_ind > sample_ind` (line 89, an
`AssertionError` whenever the log moves to a larger index), then flushes
the running vector into the output row if `current_sample_ind` is at or
past the start, resets the running index, and breaks once the new index
reaches the end; a record that survives all that (or whose index is
unchanged) writes its own variable slot of the running vector. The matrix
held when the loop ends or breaks is returned. -/
def fullScan (startI endI : Nat) :
    List SampleTuple → Nat → List ℚ → List (List ℚ) → Except Err (List (List ℚ))
  | [], _cur_ind, _cur, mat => .ok mat
  | (sample_ind, var_ind, value) :: rest, current_sample_ind, cur, mat =>
    if current_sample_ind ≠ sample_ind then
      if current_sample_ind > sample_ind then
        match (if current_sample_ind ≥ startI then
                 npSetRow mat (current_sample_ind - startI) cur
               else .ok mat) with
        | .error e => .error e
        | .ok mat1 =>
          if sample_ind ≥ endI then .ok mat1
          else
            match npSetEntry cur var_ind value with
            | .error e => .error e
            | .ok cur1 => fullScan startI endI rest sample_ind cur1 mat1
      else .error .assertionError
    else
      match npSetEntry cur var_ind value with
      | .error e => .error e
      | .ok cur1 => fullScan startI endI rest current_sample_ind cur1 mat

/-- `full_posterior_samples` (src/mcmc.py lines 81-96): a missing
`ending_sample_ind` defaults to `num_samples`; the output matrix starts as
`np.zeros((ending - starting, num_vars))` (a negative row count raises
`ValueError` in numpy); the running index starts at 0 and the running
vector as `np.zeros(num_vars)`. -/
def full_posterior_samples (st : MCMCSampleCollection) (starting_sample_ind : Nat)
    (ending_sample_ind : Option Nat) : Except Err (List (List ℚ)) :=
  let endI := ending_sample_ind.getD st.num_samples
  if (endI : Int) - (starting_sample_ind : Int) < 0 then .error .valueError
  else
    fullScan starting_sample_ind endI st.sample_tuples 0
      (List.replicate st.num_vars 0) (npZeros (endI - starting_sample_ind) st.num_vars)

/-- The scan loop of `marginal_posterior_samples_by_index` (src/mcmc.py
lines 118-126): the same flush logic as `fullScan` (including the inverted
line-120 assertion), but every surviving record runs
`current_sample[marg_var_inds.index(var_ind)] = value` (line 126) — and
`list.index` raises `ValueError` when `var_ind` is not among the requested
indices, for every record, requested or not. -/
def margScan (marg_var_inds : List Nat) (startI endI : Nat) :
    List SampleTuple → Nat → List ℚ → List (List ℚ) → Except Err (List (List ℚ))
  | [], _cur_ind, _cur, mat => .ok mat
  | (sample_ind, var_ind, value) :: rest, current_sample_ind, cur, mat =>
    let write : List ℚ → Except Err (List ℚ) := fun c =>
      match marg_var_inds.findIdx? (fun j => j == var_ind) with
      | none => .error .valueError
      | some pos => npSetEntry c pos value
    if current_sample_ind ≠ sample_ind then
      if current_sample_ind > sample_ind then
        match (if current_sample_ind ≥ startI then
                 npSetRow mat (current_sample_ind - startI) cur
               else .ok mat) with
        | .error e => .error e
        | .ok mat1 =>
          if sample_ind ≥ endI then .ok mat1
          else
            match write cur with
            | .error e => .error e
            | .ok cur1 => margScan marg_var_inds startI endI rest sample_ind cur1 mat1
      else .error .assertionError
    else
      match write cur with
      | .error e => .error e
      | .ok cur1 => margScan marg_var_inds startI endI rest current_sample_ind cur1 mat

/-- `marginal_posterior_samples_by_index` (src/mcmc.py lines 109-127): as
`full_posterior_samples`, but the matrix and the running vector have one
column per entry of `marg_var_inds`. -/
def marginal_posterior_samples_by_index (st : MCMCSampleCollection)
    (marg_var_inds : List Nat) (starting_sample_ind : Nat)
    (ending_sample_ind : Option Nat) : Except Err (List (List ℚ)) :=
  let endI := ending_sample_ind.getD st.num_samples
  if (endI : Int) - (starting_sample_ind : Int) < 0 then .error .valueError
  else
    margScan marg_var_inds starting_sample_ind endI st.sample_tuples 0
      (List.replicate marg_var_inds.length 0)
      (npZeros (endI - starting_sample_ind) marg_var_inds.length)

/-- `marginal_posterior_samples_by_name` (src/mcmc.py lines 98-107): the
list comprehension at line 104 resolves each name left to right, raising
`KeyError` on the first unregistered one; the call at lines 105-107 then
passes `starting_sample_ind=0` and `ending_sample_ind=self.num_samples`
REGARDLESS of the arguments received, and the function has no `return`
statement, so its value is `None` (here `Unit`) — any matrix computed by
the index-based operation is discarded (errors still propagate). -/
def marginal_posterior_samples_by_name (st : MCMCSampleCollection)
    (marg_var_names : List String) (starting_sample_ind : Nat)
    (ending_sample_ind : Option Nat) : Except Err Unit :=
  let _endI := ending_sample_ind.getD st.num_samples
  let _start := starting_sample_ind
  match marg_var_names.mapM (fun n => st.var_index_given_name.lookup n) with
  | none => .error .keyError
  | some marg_var_inds =>
    match marginal_posterior_samples_by_index st marg_var_inds 0 (some st.num_samples) with
    | .error e => .error e
    | .ok _ => .ok ()

/-- Unwrap a successful construction step; the failing branch is never
taken in the concrete states built below. -/
def orEmpty (e : Except Err MCMCSampleCollection) : MCMCSampleCollection :=
  match e with
  | .ok st => st
  | .error _ => emptyCollection

/-- The collection after `init_var("x", 1.0)` on a fresh object:
one variable, one sample, log `[(0, 0, 1)]`. -/
def exX : MCMCSampleCollection := orEmpty (init_var emptyCollection "x" 1)

/-- The collection after `init_var("x", 1.0); init_var("y", 2.0)`:
two variables, one sample, log `[(0, 0, 1), (0, 1, 2)]`. -/
def exXY : MCMCSampleCollection := orEmpty (init_var exX "y" 2)

/-- `exXY` followed by `add_sample_by_index(0, 3.0)` opening sample 1:
sample 1 updates only variable 0, so variable 1 has no record in
sample 1. -/
def exXY1 : MCMCSampleCollection := add_sample_by_index exXY 0 3 false

/-- `exX` followed by two new-sample appends: `num_samples = 3`. -/
def exX3 : MCMCSampleCollection :=
  add_sample_by_index (add_sample_by_index exX 0 2 false) 0 3 false

/-- A log of 20 tuples whose sample index equals the position, as a
collection with 12 or more samples would produce; used to exercise one
binary-search step. -/
def tsRange : List SampleTuple := (List.range 20).map (fun k => (k, 0, (0 : ℚ)))

/-- Adjacency of consecutive log records: the later record carries the same
sample index or the next one (non-decreasing with no skipped value). -/
def adjOK (a b : SampleTuple) : Prop := b.1 = a.1 ∨ b.1 = a.1 + 1

/-- The structural invariant of a collection: at least one sample is open,
the last log record (if any) carries the most recently opened sample index,
and consecutive records never decrease or skip a sample index. -/
def LogInv (st : MCMCSampleCollection) : Prop :=
  1 ≤ st.num_samples ∧
  (∀ t ∈ st.sample_tuples.getLast?, t.1 = st.num_samples - 1) ∧
  List.Chain' adjOK st.sample_tuples

/-- The collections produced by the public operation surface, starting
from `__init__`: successful `init_var`, `add_sample_by_index`, and
successful `add_sample_by_name` calls. -/
inductive Reachable : MCMCSampleCollection → Prop
  | base : Reachable emptyCollection
  | initVar (st st' : MCMCSampleCollection) (name : String) (v : ℚ) :
      Reachable st → init_var st name v = .ok st' → Reachable st'
  | byIndex (st : MCMCSampleCollection) (i : Nat) (v : ℚ) (b : Bool) :
      Reachable st → Reachable (add_sample_by_index st i v b)
  | byName (st st' : MCMCSampleCollection) (name : String) (v : ℚ) (b : Bool) :
      Reachable st → add_sample_by_name st name v b = .ok st' → Reachable st'

/-- Appending one record to a chain whose last element relates to it keeps
the chain. -/
theorem chain'_concat_adjOK (l : List SampleTuple) (x : SampleTuple)
    (hc : List.Chain' adjOK l) (hl : ∀ t ∈ l.getLast?, adjOK t x) :
    List.Chain' adjOK (l ++ [x]) := by
  rw [List.chain'_append]
  refine ⟨hc, List.chain'_singleton x, ?_⟩
  intro a ha y hy
  simp only [List.head?_cons, Option.mem_def, Option.some.injEq] at hy
  subst hy
  exact hl a ha

/-- `add_sample_by_index` preserves the structural invariant, whether it
opens a new sample or continues the current one. -/
theorem logInv_add (st : MCMCSampleCollection) (i : Nat) (v : ℚ) (b : Bool)
    (h : LogInv st) : LogInv (add_sample_by_index st i v b) := by
  obtain ⟨h1, h2, h3⟩ := h
  cases b with
  | true =>
    have hns : (add_sample_by_index st i v true).num_samples = st.num_samples := by
      simp [add_sample_by_index]
    have hts : (add_sample_by_index st i v true).sample_tuples
        = st.sample_tuples ++ [(st.num_samples - 1, i, v)] := by
      simp [add_sample_by_index]
    refine ⟨by rw [hns]; exact h1, ?_, ?_⟩
    · intro t ht
      rw [hts, List.getLast?_concat] at ht
      simp only [Option.mem_def, Option.some.injEq] at ht
      subst ht
      rw [hns]
    · rw [hts]
      refine chain'_concat_adjOK _ _ h3 ?_
      intro t ht
      refine Or.inl ?_
      show st.num_samples - 1 = t.1
      exact (h2 t ht).symm
  | false =>
    have hns : (add_sample_by_index st i v false).num_samples = st.num_samples + 1 := by
      simp [add_sample_by_index]
    have hts : (add_sample_by_index st i v false).sample_tuples
        = st.sample_tuples ++ [(st.num_samples + 1 - 1, i, v)] := by
      simp [add_sample_by_index]
    refine ⟨by rw [hns]; omega, ?_, ?_⟩
    · intro t ht
      rw [hts, List.getLast?_concat] at ht
      simp only [Option.mem_def, Option.some.injEq] at ht
      subst ht
      rw [hns]
    · rw [hts]
      refine chain'_concat_adjOK _ _ h3 ?_
      intro t ht
      have ht1 := h2 t ht
      refine Or.inr ?_
      show st.num_samples + 1 - 1 = t.1 + 1
      omega

/-- Every reachable collection satisfies the structural invariant. -/
theorem reachable_logInv (st : MCMCSampleCollection) (h : Reachable st) :
    LogInv st := by
  induction h with
  | base =>
    refine ⟨le_refl 1, ?_, ?_⟩ <;> simp [emptyCollection]
  | initVar st st' name v _hr heq ih =>
    by_cases hns : st.num_samples > 1
    · rw [init_var, if_pos hns] at heq
      exact absurd heq (by simp)
    · rw [init_var, if_neg hns] at heq
      simp only [Except.ok.injEq] at heq
      subst heq
      exact logInv_add _ st.num_vars v true ih
  | byIndex st i v b _hr ih =>
    exact logInv_add st i v b ih
  | byName st st' name v b _hr heq ih =>
    rw [add_sample_by_name] at heq
    cases hl : st.var_index_given_name.lookup name with
    | none => rw [hl] at heq; exact absurd heq (by simp)
    | some i =>
      rw [hl] at heq
      simp only [Except.ok.injEq] at heq
      subst heq
      exact logInv_add st i v b ih

/-- C1: the claim says the matrix returned by `full_posterior_samples`
forward-fills a variable not updated in a sample from the previous row. On
the collection `exXY1` (variables `x = 1`, `y = 2`; sample 1 updates only
`x`) the scan instead aborts: at the first record of sample 1 the source
runs `assert current_sample_ind > sample_ind` (src/mcmc.py line 89) with
`current_sample_ind = 0` and `sample_ind = 1`, an inverted comparison that
fails on every log that ever moves to a later sample, so no matrix is
returned at all. -/
theorem full_assert_inverted_c1 :
    full_posterior_samples exXY1 0 none = .error .assertionError ∧
    exXY1.sample_tuples = [(0, 0, 1), (0, 1, 2), (1, 0, 3)] :=
  ⟨rfl, by decide⟩

/-- C2: the claim says the locator returns the position of the first
record of the desired sample index, in particular on the linear branch
(`desired ≤ 10`). On `exXY` the record at position 0 has sample index 0,
yet `first_tuple_index_of_desired_sample_index` exits with the
cannot-find error: the line-53 loop binds the whole tuple, so the line-54
comparison with an integer is always false and the linear branch can never
return. -/
theorem locate_linear_never_matches_c2 :
    first_tuple_index_of_desired_sample_index exXY 0 = .error .sampleNotFound ∧
    (exXY.sample_tuples.get? 0).map (fun t => t.1) = some 0 :=
  ⟨rfl, by decide⟩

/-- C3: the claim says a record whose variable index is not among the
requested ones is skipped by the marginal scan, and the marginal matrix
matches the corresponding columns of the full one. On `exXY` with the
request `[0]`, the record for variable 1 is not skipped: the source runs
`marg_var_inds.index(var_ind)` (src/mcmc.py line 126) on every record, and
`list.index` raises `ValueError` for an absent element, so the marginal
reconstruction aborts instead of projecting. -/
theorem marginal_raises_on_unrequested_c3 :
    marginal_posterior_samples_by_index exXY [0] 0 none = .error .valueError ∧
    exXY.sample_tuples = [(0, 0, 1), (0, 1, 2)] :=
  ⟨rfl, by decide⟩

/-- C4: the claim says row 0 of the full reconstruction equals the initial
values passed during registration. On `exX` (a single variable registered
with initial value 1) `full_posterior_samples` returns `[[0]]`: rows are
only ever written when the scan sees a later sample index, and the running
vector of the final (here: only) sample is never flushed, so row 0 keeps
its `np.zeros` content instead of the registered value 1. -/
theorem first_row_zeros_c4 :
    full_posterior_samples exX 0 none = .ok [[0]] ∧ [[(0 : ℚ)]] ≠ [[1]] :=
  ⟨rfl, by decide⟩

/-- C5: `init_var` exits with the registration-closed error exactly when a
sample beyond index 0 has been opened (`num_samples > 1`); before that it
succeeds, assigns the next free index (`num_vars`), and records the pair in
both the name-to-index and the index-to-name map. -/
theorem init_var_closure_c5 :
    ∀ (st : MCMCSampleCollection) (name : String) (v : ℚ),
      (1 < st.num_samples → init_var st name v = .error .registrationClosed) ∧
      (init_var st name v = .error .registrationClosed → 1 < st.num_samples) ∧
      (st.num_samples ≤ 1 → ∃ st', init_var st name v = .ok st' ∧
        st'.var_index_given_name.lookup name = some st.num_vars ∧
        st'.var_name_given_index.lookup st.num_vars = some name ∧
        st'.num_vars = st.num_vars + 1) := by
  intro st name v
  refine ⟨?_, ?_, ?_⟩
  · intro h
    rw [init_var, if_pos h]
  · intro h
    by_cases hns : 1 < st.num_samples
    · exact hns
    · rw [init_var, if_neg hns] at h
      exact absurd h (by simp)
  · intro h
    have hns : ¬ st.num_samples > 1 := by omega
    refine ⟨_, by rw [init_var, if_neg hns], ?_, ?_, ?_⟩
    · simp [add_sample_by_index, List.lookup]
    · simp [add_sample_by_index, List.lookup]
    · simp [add_sample_by_index]

/-- C5 witness: on `exX3` (three samples open) registering fails with the
registration-closed error; on `exX` (only the initial sample) registering
`y` succeeds with index `exX.num_vars` and both mappings recorded. -/
theorem init_var_closure_c5_witness :
    (1 < exX3.num_samples ∧ init_var exX3 "z" 5 = .error .registrationClosed) ∧
    (exX.num_samples ≤ 1 ∧ ∃ st', init_var exX "y" 2 = .ok st' ∧
      st'.var_index_given_name.lookup "y" = some exX.num_vars ∧
      st'.var_name_given_index.lookup exX.num_vars = some "y" ∧
      st'.num_vars = exX.num_vars + 1) :=
  ⟨⟨by decide, (init_var_closure_c5 exX3 "z" 5).1 (by decide)⟩,
   ⟨by decide, (init_var_closure_c5 exX "y" 2).2.2 (by decide)⟩⟩

/-- C6: an append with `same_sample_as_prev = false` increments the sample
counter and logs its record under the new counter value minus one; an
append with `same_sample_as_prev = true` leaves the counter unchanged and
logs its record under the current (most recently opened) sample index;
consequently, on every collection reachable through the operation surface,
adjacent log records carry equal or successive sample indices — the log is
monotonically non-decreasing with no skipped values. -/
theorem append_semantics_c6 :
    (∀ (st : MCMCSampleCollection) (i : Nat) (v : ℚ),
      (add_sample_by_index st i v false).num_samples = st.num_samples + 1 ∧
      (add_sample_by_index st i v false).sample_tuples
        = st.sample_tuples ++ [((add_sample_by_index st i v false).num_samples - 1, i, v)]) ∧
    (∀ (st : MCMCSampleCollection) (i : Nat) (v : ℚ),
      (add_sample_by_index st i v true).num_samples = st.num_samples ∧
      (add_sample_by_index st i v true).sample_tuples
        = st.sample_tuples ++ [(st.num_samples - 1, i, v)]) ∧
    (∀ st : MCMCSampleCollection, Reachable st → List.Chain' adjOK st.sample_tuples) := by
  refine ⟨?_, ?_, ?_⟩
  · intro st i v
    exact ⟨by simp [add_sample_by_index], by simp [add_sample_by_index]⟩
  · intro st i v
    exact ⟨by simp [add_sample_by_index], by simp [add_sample_by_index]⟩
  · intro st h
    exact (reachable_logInv st h).2.2

/-- C6 witness: the collection reached by one registration and one
new-sample append has a non-decreasing, no-skip log. -/
theorem append_semantics_c6_witness :
    Reachable (add_sample_by_index exX 0 2 false) ∧
    List.Chain' adjOK (add_sample_by_index exX 0 2 false).sample_tuples :=
  ⟨Reachable.byIndex exX 0 2 false
     (Reachable.initVar emptyCollection exX "x" 1 Reachable.base rfl),
   append_semantics_c6.2.2 (add_sample_by_index exX 0 2 false)
     (Reachable.byIndex exX 0 2 false
       (Reachable.initVar emptyCollection exX "x" 1 Reachable.base rfl))⟩

/-- C7: the claim says the name-based marginal operation returns the
marginal matrix over the requested range. The source function has no
`return` statement and overrides the received range with
`(0, num_samples)` before delegating, so it evaluates to `None` (here
`Unit`) and hands no matrix back: on `exX` it yields `.ok ()` while the
index-based operation the claim compares against yields a matrix. -/
theorem by_name_returns_none_c7 :
    marginal_posterior_samples_by_name exX ["x"] 0 (some 1) = .ok () ∧
    marginal_posterior_samples_by_index exX [0] 0 (some 1) = .ok [[0]] :=
  ⟨rfl, rfl⟩

/-- C8: the locator fails with the index-out-of-range error whenever the
desired sample index is not less than `num_samples`; the entry assertion
(src/mcmc.py line 48) rejects before either search branch runs. -/
theorem locate_out_of_range_c8 :
    ∀ (st : MCMCSampleCollection) (d : Nat), st.num_samples ≤ d →
      first_tuple_index_of_desired_sample_index st d = .error .indexOutOfRange := by
  intro st d h
  have hc : ¬ ((d : Int) ≤ (st.num_samples : Int) - 1) := by omega
  rw [first_tuple_index_of_desired_sample_index, if_pos hc]

/-- C8 witness: `locate(5)` on the three-sample collection `exX3` fails
with the index-out-of-range error. -/
theorem locate_out_of_range_c8_witness :
    exX3.num_samples ≤ 5 ∧
    first_tuple_index_of_desired_sample_index exX3 5 = .error .indexOutOfRange :=
  ⟨by decide, locate_out_of_range_c8 exX3 5 (by decide)⟩

/-- C9: whenever an iteration of the binary search continues, the new
interval is strictly narrower than the old one and satisfies the line-79
invariant `lower_bound + 1 < upper_bound` — so the loop (`binSearchGo`,
whose termination argument is exactly this) terminates; an iteration whose
updated bounds would violate the invariant does not continue (it aborts
with the search-invariant error in `binStep`). -/
theorem binStep_shrinks_c9 :
    ∀ (ts : List SampleTuple) (d lb ub lb' ub' : Nat),
      binStep ts d lb ub = .cont lb' ub' →
      ub' - lb' < ub - lb ∧ lb' + 1 < ub' := by
  intro ts d lb ub lb' ub' h
  unfold binStep at h
  repeat' split at h
  all_goals cases h
  all_goals unfold testIndex at *
  all_goals omega

/-- C9 witness: one step of the search for sample index 11 over a
20-record log continues from `(0, 20)` to the strictly narrower `(10, 20)`,
which still satisfies the invariant. -/
theorem binStep_shrinks_c9_witness :
    binStep tsRange 11 0 20 = BinOutcome.cont 10 20 ∧
    (20 - 10 < 20 - 0 ∧ 10 + 1 < 20) :=
  ⟨by decide, binStep_shrinks_c9 tsRange 11 0 20 10 20 (by decide)⟩

/-- C10: appending by a name that was never registered fails with the
lookup (KeyError) error: the dict subscript is evaluated before
`add_sample_by_index` is called, so the failed call produces no successor
state — the log, the counters and both mappings stay as they were. -/
theorem add_sample_by_name_unknown_c10 :
    ∀ (st : MCMCSampleCollection) (name : String) (v : ℚ) (b : Bool),
      st.var_index_given_name.lookup name = none →
      add_sample_by_name st name v b = .error .keyError := by
  intro st name v b h
  rw [add_sample_by_name, h]

/-- C10 witness: appending `y` on a fresh collection, where no name is
registered, fails with the lookup error. -/
theorem add_sample_by_name_unknown_c10_witness :
    emptyCollection.var_index_given_name.lookup "y" = none ∧
    add_sample_by_name emptyCollection "y" 1 false = .error .keyError :=
  ⟨rfl, add_sample_by_name_unknown_c10 emptyCollection "y" 1 false rfl⟩
